import Mathlib

/-!
Verification development for the MaTiSSe box module (`matisse/theme/box.py`).

The module defines four compiled regular expressions, a `Box` class whose
`get`/`__get_style`/`__get_caption`/`__get_content` methods populate the box
fields from a raw body string, caption helpers `caption_txt`/`put_caption`,
an HTML renderer `to_html` built on the external `yattag` document builder,
and a module-level `parse` function that substitutes every `$box ... $endbox`
span of a source document with the rendered fragment.

Strings are embedded as `List Char`.  Each of the four Python regular
expressions is embedded as a dedicated search function that reproduces the
backtracking engine's behaviour on that concrete pattern (leftmost start
position wins; lazy `.*?` prefers the shortest extent; greedy `(...)* `
repetition prefers more repetitions and keeps the capture of the last
repetition; a group repeated zero times captures nothing).
-/

/-- Character-list strings, the embedding of Python `str` values. -/
abbrev Chars := List Char

/-- Coerce a Lean string literal to its character list. -/
def lit (s : String) : Chars := s.toList

/-- Python whitespace characters recognised by `str.strip()`. -/
def isPySpace (c : Char) : Bool :=
  c = ' ' || c = '\t' || c = '\n' || c = '\r' || c = '\x0b' || c = '\x0c'

/-- Embedding of Python `str.strip()`: drop whitespace at both ends. -/
def pyStrip (s : Chars) : Chars :=
  ((s.dropWhile isPySpace).reverse.dropWhile isPySpace).reverse

/-- Embedding of Python `str.lower()` (ASCII case folding suffices for the
characters this module compares, namely the literal `none`). -/
def lowerChars (s : Chars) : Chars := s.map Char.toLower

/-- Python truthiness of an optional string: `None` and the empty string are
falsy, any non-empty string is truthy. -/
def truthy : Option Chars → Bool
  | none => false
  | some s => !s.isEmpty

/-- Split `s` at the first occurrence of `pat`: returns `(before, after)` with
`s = before ++ pat ++ after` and `pat` not occurring earlier.  This is the
semantics of a lazy `.*?` capture terminated by the literal `pat`: the match
extends to the first occurrence of the terminator. -/
def splitFirst (pat : Chars) : Chars → Option (Chars × Chars)
  | [] => if pat.isEmpty then some ([], []) else none
  | c :: rest =>
    if pat.isPrefixOf (c :: rest) then some ([], (c :: rest).drop pat.length)
    else
      match splitFirst pat rest with
      | some (b, a) => some (c :: b, a)
      | none => none

/-- `pat` occurs as a contiguous substring of `s`. -/
def containsSub (pat : Chars) (s : Chars) : Bool := (splitFirst pat s).isSome

/-- Search for the compiled pattern `__rebox__`, i.e.
`\$box(?P<box>.*?)\$endbox` with `re.DOTALL`, as `re.search` does: the
leftmost position carrying the literal `$box` and followed by `$endbox`
matches, and the lazy body stops at the first `$endbox`.  Returns
`(pre, body, post)`: the text before the match, the `box` group, and the text
after the match. -/
def reboxSearch : Chars → Option (Chars × Chars × Chars)
  | [] => none
  | c :: rest =>
    if (lit "$box").isPrefixOf (c :: rest) then
      match splitFirst (lit "$endbox") ((c :: rest).drop 4) with
      | some (body, post) => some ([], body, post)
      | none =>
        match reboxSearch rest with
        | some (pre, body, post) => some (c :: pre, body, post)
        | none => none
    else
      match reboxSearch rest with
      | some (pre, body, post) => some (c :: pre, body, post)
      | none => none

/-- Search for the compiled pattern `__restl__`, i.e.
`\$style\[(?P<style>.*?)\]` with `re.DOTALL`: leftmost `$style[` followed by a
`]` matches, the lazy `style` group stops at the first `]`. -/
def restlSearch : Chars → Option Chars
  | [] => none
  | c :: rest =>
    if (lit "$style[").isPrefixOf (c :: rest) then
      match splitFirst [']'] ((c :: rest).drop 7) with
      | some (sty, _) => some sty
      | none => restlSearch rest
    else restlSearch rest

theorem splitFirst_eq_some {pat s b a : Chars} (h : splitFirst pat s = some (b, a)) :
    s = b ++ pat ++ a := by
  induction s generalizing b a with
  | nil =>
    unfold splitFirst at h
    split at h
    · next hp =>
      simp only [Option.some.injEq, Prod.mk.injEq] at h
      simp [List.isEmpty_iff.mp hp, ← h.1, ← h.2]
    · exact absurd h (by simp)
  | cons c rest ih =>
    unfold splitFirst at h
    split at h
    · next hp =>
      simp only [Option.some.injEq, Prod.mk.injEq] at h
      obtain ⟨t, ht⟩ := List.isPrefixOf_iff_prefix.mp hp
      rw [← h.1, ← h.2, List.nil_append, ← ht, List.drop_left]
    · next hp =>
      cases hsf : splitFirst pat rest with
      | none => rw [hsf] at h; exact absurd h (by simp)
      | some p =>
        obtain ⟨b', a'⟩ := p
        rw [hsf] at h
        simp only [Option.some.injEq, Prod.mk.injEq] at h
        rw [← h.1, ← h.2, List.cons_append, List.cons_append]
        exact congrArg (c :: ·) (ih hsf)

theorem splitFirst_some_after_lt {pat s b a : Chars} (hpat : pat ≠ [])
    (h : splitFirst pat s = some (b, a)) : a.length < s.length := by
  have := splitFirst_eq_some h
  subst this
  have : 0 < pat.length := List.length_pos.mpr hpat
  simp only [List.length_append]
  omega

theorem reboxSearch_some_post_lt {s pre body post : Chars}
    (h : reboxSearch s = some (pre, body, post)) : post.length < s.length := by
  induction s generalizing pre body post with
  | nil => exact absurd h (by simp [reboxSearch])
  | cons c rest ih =>
    unfold reboxSearch at h
    split at h
    · split at h
      · next heq =>
        simp only [Option.some.injEq, Prod.mk.injEq] at h
        obtain ⟨-, -, h3⟩ := h
        subst h3
        have := splitFirst_some_after_lt (by decide : lit "$endbox" ≠ []) heq
        have hd : ((c :: rest).drop 4).length ≤ (c :: rest).length := by
          simp only [List.length_drop]
          omega
        omega
      · cases hr : reboxSearch rest with
        | none => rw [hr] at h; exact absurd h (by simp)
        | some p =>
          obtain ⟨p1, p2, p3⟩ := p
          rw [hr] at h
          simp only [Option.some.injEq, Prod.mk.injEq] at h
          obtain ⟨-, -, h3⟩ := h
          subst h3
          have := ih hr
          simp only [List.length_cons]
          omega
    · cases hr : reboxSearch rest with
      | none => rw [hr] at h; exact absurd h (by simp)
      | some p =>
        obtain ⟨p1, p2, p3⟩ := p
        rw [hr] at h
        simp only [Option.some.injEq, Prod.mk.injEq] at h
        obtain ⟨-, -, h3⟩ := h
        subst h3
        have := ih hr
        simp only [List.length_cons]
        omega

/-- The `box` groups of the successive non-overlapping matches that
`re.finditer(__rebox__, s)` yields: each search resumes after the end of the
previous match.  The fuel argument bounds the number of matches; by
`reboxSearch_some_post_lt` every match consumes at least one character (in
fact eleven), so the `finditerReboxAll` wrapper below, which passes the
length of `s` as fuel, never exhausts it. -/
def finditerRebox : Nat → Chars → List Chars
  | 0, _ => []
  | fuel + 1, s =>
    match reboxSearch s with
    | some (_, body, post) => body :: finditerRebox fuel post
    | none => []

/-- All matches of `__rebox__` in `s`, as `re.finditer` yields them. -/
def finditerReboxAll (s : Chars) : List Chars := finditerRebox s.length s

/-- Embedding of `re.sub(__rebox__, repl, s, 1)`: replace the first match of
the outer pattern with `repl`.  (Python additionally processes template
escapes in `repl`; the replacement strings this development considers contain
no backslash, for which template processing is the identity.) -/
def subFirstRebox (repl : Chars) (s : Chars) : Chars :=
  match reboxSearch s with
  | some (pre, _, post) => pre ++ repl ++ post
  | none => s

/-- One repetition of a delimited group such as `\((?P<t>.*?)\)` at the head
of `s`, taken with the engine's first preference: the lazy inner capture stops
at the first closing delimiter.  Returns `(inner, rest)`. -/
def firstUnit (o c : Char) : Chars → Option (Chars × Chars)
  | x :: t => if x = o then splitFirst [c] t else none
  | [] => none

theorem firstUnit_some_rest_lt {o c : Char} {s inner rest : Chars}
    (h : firstUnit o c s = some (inner, rest)) : rest.length < s.length := by
  cases s with
  | nil => simp [firstUnit] at h
  | cons x t =>
    simp only [firstUnit] at h
    split at h
    · have := splitFirst_some_after_lt (by simp : [c] ≠ []) h
      simp only [List.length_cons]
      omega
    · simp at h

/-- Greedy repetition `(unit)*` in a context where everything that follows the
star in the pattern is itself optional, so the overall match cannot fail: the
backtracking engine then commits to its first preference, namely taking
repetitions (each with the lazy-shortest inner extent) for as long as a
repetition matches.  Carries the capture of the last repetition taken
(`none` when no repetition was taken).  Returns `(capture, rest)`.
This is the situation of all three starred groups of `__recap__`.
The fuel argument bounds the number of repetitions; by
`firstUnit_some_rest_lt` every repetition consumes at least one character (in
fact two), so callers passing the length of `s` as fuel never exhaust it. -/
def munch (o c : Char) : Nat → Option Chars → Chars → Option Chars × Chars
  | 0, cap, s => (cap, s)
  | fuel + 1, cap, s =>
    match firstUnit o c s with
    | some (inner, rest) => munch o c fuel (some inner) rest
    | none => (cap, s)

/-- All ways a single repetition `\(inner\)` (lazy inner) can match at the
head of `s`, in the engine's preference order: the inner capture stops at the
first closing delimiter, then at the second, and so on. -/
def delimSplits (close : Char) : Chars → List (Chars × Chars)
  | [] => []
  | c :: t =>
    if c = close then ([], t) :: (delimSplits close t).map (fun p => (c :: p.1, p.2))
    else (delimSplits close t).map (fun p => (c :: p.1, p.2))

/-- All ways one repetition of the group `\(o (.*?) c\)` can match at the head
of `s`, ordered by the engine's preference (shortest inner extent first). -/
def unitAlts (o c : Char) : Chars → List (Chars × Chars)
  | [] => []
  | x :: t => if x = o then delimSplits c t else []

theorem delimSplits_mem_rest_lt {close : Char} {t : Chars} {p : Chars × Chars}
    (h : p ∈ delimSplits close t) : p.2.length < t.length := by
  induction t generalizing p with
  | nil => exact absurd h (by simp [delimSplits])
  | cons c t ih =>
    unfold delimSplits at h
    split at h
    · rcases List.mem_cons.mp h with h1 | h2
      · subst h1; simp
      · obtain ⟨q, hq, hqe⟩ := List.mem_map.mp h2
        have := ih hq
        rw [← hqe]
        simp only [List.length_cons]
        omega
    · obtain ⟨q, hq, hqe⟩ := List.mem_map.mp h
      have := ih hq
      rw [← hqe]
      simp only [List.length_cons]
      omega

theorem unitAlts_mem_rest_lt {o c : Char} {s : Chars} {p : Chars × Chars}
    (h : p ∈ unitAlts o c s) : p.2.length < s.length := by
  cases s with
  | nil => simp [unitAlts] at h
  | cons x t =>
    simp only [unitAlts] at h
    split at h
    · have := delimSplits_mem_rest_lt h
      simp only [List.length_cons]
      omega
    · simp at h

/-- Every `(last capture, rest)` outcome of the greedy repetition `(unit)*`,
enumerated in the backtracking engine's preference order: a repetition is
preferred over stopping, repetition alternatives come shortest-inner first,
and after a repetition the remaining repetitions are enumerated recursively;
stopping yields the capture carried so far.  The fuel argument bounds the
repetition depth; since every repetition consumes at least two characters,
`fuel = s.length` (as all callers pass) can never be exhausted. -/
def starOutcomes (o c : Char) : Nat → Option Chars → Chars → List (Option Chars × Chars)
  | 0, cap, s => [(cap, s)]
  | fuel + 1, cap, s =>
    ((unitAlts o c s).flatMap fun p => starOutcomes o c fuel (some p.1) p.2) ++ [(cap, s)]

/-- The required tail `\{(?P<ctn>.*?)\}` of `__rectn__` at the head of `s`:
an opening brace whose lazy body stops at the first closing brace.  (Later
closing braces are in principle further backtracking alternatives, but the
tail is the last element of the pattern, so its first alternative is always
accepted when one exists.) -/
def braceCap : Chars → Option Chars
  | x :: t => if x = '\x7b' then (splitFirst ['\x7d'] t).map Prod.fst else none
  | [] => none

/-- The named captures of one `__recap__` match. -/
structure RecapM where
  cap_type : Option Chars
  cap_options : Option Chars
  cap : Option Chars
deriving DecidableEq, Repr

/-- The named captures of one `__rectn__` match (the `ctn` group is required,
so it is always captured when the pattern matches). -/
structure RectnM where
  ctn_type : Option Chars
  ctn_options : Option Chars
  ctn : Chars
deriving DecidableEq, Repr

/-- Match the part of `__recap__` following the literal `$caption` at the head
of `s`.  All three starred groups are optional, so the match never fails and
the engine commits to greedy first preferences (`munch`). -/
def recapAt (s : Chars) : RecapM :=
  let tp := munch '(' ')' s.length none s
  let op := munch '[' ']' tp.2.length none tp.2
  let cp := munch '\x7b' '\x7d' op.2.length none op.2
  ⟨tp.1, op.1, cp.1⟩

/-- Search for the compiled pattern `__recap__`, i.e.
`\$caption(\((?P<cap_type>.*?)\))*(\[(?P<cap_options>.*?)\])*(\{(?P<cap>.*?)\})*`
with `re.DOTALL`: the pattern matches exactly at positions carrying the
literal `$caption` (everything after the literal is optional), so the search
succeeds at the leftmost such position. -/
def recapSearch : Chars → Option RecapM
  | [] => none
  | c :: rest =>
    if (lit "$caption").isPrefixOf (c :: rest) then some (recapAt ((c :: rest).drop 8))
    else recapSearch rest

/-- Match the part of `__rectn__` following the literal `$content` at the head
of `s`: the two starred groups followed by the required brace group, explored
in the engine's backtracking order; the first combination that leaves a brace
group at hand succeeds. -/
def rectnAt (s : Chars) : Option RectnM :=
  (starOutcomes '(' ')' s.length none s).findSome? fun tp =>
    (starOutcomes '[' ']' tp.2.length none tp.2).findSome? fun op =>
      (braceCap op.2).map fun cb => ⟨tp.1, op.1, cb⟩

/-- Search for the compiled pattern `__rectn__`, i.e.
`\$content(\((?P<ctn_type>.*?)\))*(\[(?P<ctn_options>.*?)\])*\{(?P<ctn>.*?)\}`
with `re.DOTALL`: positions are tried left to right; a position matches when
it carries the literal `$content` and the rest of the pattern can match after
it. -/
def rectnSearch : Chars → Option RectnM
  | [] => none
  | c :: rest =>
    if (lit "$content").isPrefixOf (c :: rest) then
      match rectnAt ((c :: rest).drop 8) with
      | some m => some m
      | none => rectnSearch rest
    else rectnSearch rest

/-- The `Box` class state after `__init__(ctn_type='box')`: `number` is 0,
`ctn_type` is the constructor argument (default `'box'`), every other field is
`None`. -/
structure Box where
  number : Nat := 0
  ctn_type : Chars := lit "box"
  style : Option Chars := none
  ctn_options : Option Chars := none
  cap_options : Option Chars := none
  cap_type : Option Chars := none
  ctn : Option Chars := none
  cap : Option Chars := none
deriving DecidableEq, Repr

/-- `Box.__get_style`: search `__restl__`; when it matches and the captured
`style` group is truthy, store its stripped value. -/
def Box.get_style (b : Box) (source : Chars) : Box :=
  match restlSearch source with
  | some style => if !style.isEmpty then { b with style := some (pyStrip style) } else b
  | none => b

/-- `Box.__get_caption`: search `__recap__`; when it matches, a truthy
`cap_type` equal to `'none'` after `str.lower()` (compared before stripping)
sets `cap_type` to `None`, any other truthy `cap_type` is stored stripped; a
truthy `cap_options` is stored stripped; the `cap` group is assigned
unconditionally and then stripped when truthy. -/
def Box.get_caption (b : Box) (source : Chars) : Box :=
  match recapSearch source with
  | none => b
  | some m =>
    let b1 :=
      match m.cap_type with
      | some t =>
        if !t.isEmpty then
          if lowerChars t = lit "none" then { b with cap_type := none }
          else { b with cap_type := some (pyStrip t) }
        else b
      | none => b
    let b2 :=
      match m.cap_options with
      | some o => if !o.isEmpty then { b1 with cap_options := some (pyStrip o) } else b1
      | none => b1
    match m.cap with
    | some cp =>
      if !cp.isEmpty then { b2 with cap := some (pyStrip cp) } else { b2 with cap := some cp }
    | none => { b2 with cap := none }

/-- `Box.__get_content`: search `__rectn__`; when it matches, a truthy
`ctn_type` is stored stripped (verbatim, with no validation against the
`figure`/`table`/`note`/`box` enumeration), a truthy `ctn_options` is stored
stripped, and the required `ctn` group is assigned and stripped when truthy. -/
def Box.get_content (b : Box) (source : Chars) : Box :=
  match rectnSearch source with
  | none => b
  | some m =>
    let b1 :=
      match m.ctn_type with
      | some t => if !t.isEmpty then { b with ctn_type := pyStrip t } else b
      | none => b
    let b2 :=
      match m.ctn_options with
      | some o => if !o.isEmpty then { b1 with ctn_options := some (pyStrip o) } else b1
      | none => b1
    if !m.ctn.isEmpty then { b2 with ctn := some (pyStrip m.ctn) } else { b2 with ctn := some m.ctn }

/-- `Box.get`: style, then caption, then content, each matched independently
against the whole raw body.  Total by construction, which embeds the fact
that the Python method raises no exception on any input string. -/
def Box.get (b : Box) (source : Chars) : Box :=
  ((b.get_style source).get_caption source).get_content source

/-- A fresh `Box()` populated from `source` with `Box.get`, as the
substitution pass does for every match. -/
def boxGet (source : Chars) : Box := Box.get {} source

/-- `Box.caption_txt`: the caption text.  When both `cap_type` and `cap` are
truthy the text is `cap_type + ' ' + str(number) + ': ' + cap`; when exactly
one is truthy the text is that one.  When neither is truthy the Python
function falls through every branch and fails with `UnboundLocalError`
(`txt` is never assigned); this undefined branch is embedded as `none`. -/
def Box.caption_txt (b : Box) : Option Chars :=
  if truthy b.cap_type && truthy b.cap then
    some (b.cap_type.getD [] ++ [' '] ++ lit (toString b.number) ++ lit ": " ++ b.cap.getD [])
  else if truthy b.cap_type then b.cap_type
  else if truthy b.cap then b.cap
  else none

/-- Modelled from the spec: the external `yattag` document builder escapes
text inserted with `doc.text` for markup embedding; a box field is otherwise
carried literally into the fragment. -/
def textEscape (s : Chars) : Chars :=
  s.flatMap fun c =>
    if c = '&' then lit "&amp;"
    else if c = '<' then lit "&lt;"
    else if c = '>' then lit "&gt;"
    else [c]

/-- Modelled from the spec: the rendered element carries the options string as
its `style` attribute when the field is truthy (`if self.<options>:` followed
by `doc.attr(style=...)` in the source), and no attribute otherwise. -/
def attrIf (o : Option Chars) : Chars :=
  if truthy o then lit " style=\"" ++ textEscape (o.getD []) ++ ['"'] else []

/-- `Box.put_caption`: when `cap` or `cap_type` is truthy, emit a caption
element of class `box caption`, with `cap_options` as its style attribute
when truthy, containing the `caption_txt` text; otherwise emit nothing.
The element byte layout is modelled from the spec, the guard and the inserted
data are the source's. -/
def Box.put_caption (b : Box) : Chars :=
  if truthy b.cap || truthy b.cap_type then
    lit "<div class=\"box caption\"" ++ attrIf b.cap_options ++ ['>']
      ++ textEscape (b.caption_txt.getD []) ++ lit "</div>"
  else []

/-- `Box.to_html`: an outer container of class `box` carrying `style` when
truthy, an inner content element of class `box content` carrying
`ctn_options` when truthy and containing `ctn` as text, then the caption via
`put_caption`.  Modelled from the spec: the `yattag` byte layout of the
elements, and the rendering of an absent (`None`) content body as an empty
content element. -/
def Box.to_html (b : Box) : Chars :=
  lit "<div markdown=\"1\" class=\"box\"" ++ attrIf b.style ++ ['>']
    ++ lit "<div class=\"box content\"" ++ attrIf b.ctn_options ++ ['>']
    ++ textEscape (b.ctn.getD []) ++ lit "</div>"
    ++ b.put_caption ++ lit "</div>"

/-- The module-level `parse` function: iterate over the matches that one scan
of the *original* `source` yields (`re.finditer` is evaluated once, on entry);
for each match, populate a fresh `Box()` from the match's `box` group and
replace the first occurrence of the outer pattern in the current working copy
with the rendered fragment. -/
def parse (source : Chars) : Chars :=
  (finditerReboxAll source).foldl
    (fun doc body => subFirstRebox (Box.to_html (boxGet body)) doc) source

/-! ### Helper lemmas -/

theorem get_style_of_search_none {b : Box} {src : Chars} (h : restlSearch src = none) :
    b.get_style src = b := by
  unfold Box.get_style
  rw [h]

theorem get_caption_of_search_none {b : Box} {src : Chars} (h : recapSearch src = none) :
    b.get_caption src = b := by
  unfold Box.get_caption
  rw [h]

theorem get_content_of_search_none {b : Box} {src : Chars} (h : rectnSearch src = none) :
    b.get_content src = b := by
  unfold Box.get_content
  rw [h]

/-- `__get_style` writes only the `style` field. -/
theorem get_style_proj (b : Box) (src : Chars) :
    (b.get_style src).number = b.number ∧ (b.get_style src).ctn_type = b.ctn_type
    ∧ (b.get_style src).ctn_options = b.ctn_options
    ∧ (b.get_style src).cap_options = b.cap_options
    ∧ (b.get_style src).cap_type = b.cap_type
    ∧ (b.get_style src).ctn = b.ctn ∧ (b.get_style src).cap = b.cap := by
  unfold Box.get_style
  cases restlSearch src with
  | none => simp
  | some s =>
    dsimp only
    split <;> simp

/-- `__get_caption` writes only the `cap_type`, `cap_options` and `cap`
fields. -/
theorem get_caption_proj (b : Box) (src : Chars) :
    (b.get_caption src).number = b.number ∧ (b.get_caption src).ctn_type = b.ctn_type
    ∧ (b.get_caption src).style = b.style
    ∧ (b.get_caption src).ctn_options = b.ctn_options
    ∧ (b.get_caption src).ctn = b.ctn := by
  unfold Box.get_caption
  cases h : recapSearch src with
  | none => simp
  | some m =>
    rcases m with ⟨mt, mo, mc⟩
    dsimp only
    rcases mt with - | t <;> rcases mo with - | o <;> rcases mc with - | cp <;>
      dsimp only <;> (try split_ifs) <;> simp

/-- `__get_content` writes only the `ctn_type`, `ctn_options` and `ctn`
fields. -/
theorem get_content_proj (b : Box) (src : Chars) :
    (b.get_content src).number = b.number ∧ (b.get_content src).style = b.style
    ∧ (b.get_content src).cap_options = b.cap_options
    ∧ (b.get_content src).cap_type = b.cap_type
    ∧ (b.get_content src).cap = b.cap := by
  unfold Box.get_content
  cases h : rectnSearch src with
  | none => simp
  | some m =>
    rcases m with ⟨mt, mo, mc⟩
    dsimp only
    rcases mt with - | t <;> rcases mo with - | o <;>
      dsimp only <;> (try split_ifs) <;> simp

/-- Every box the substitution pass builds keeps the constructor's `number`,
which is 0: nothing in the module ever assigns or increments it. -/
theorem boxGet_number (src : Chars) : (boxGet src).number = 0 := by
  unfold boxGet Box.get
  rw [(get_content_proj _ _).1, (get_caption_proj _ _).1, (get_style_proj _ _).1]

theorem containsSub_cons_false {pat : Chars} {c : Char} {rest : Chars}
    (h : containsSub pat (c :: rest) = false) :
    pat.isPrefixOf (c :: rest) = false ∧ containsSub pat rest = false := by
  unfold containsSub at h ⊢
  unfold splitFirst at h
  split at h
  · simp at h
  · next hp =>
    refine ⟨Bool.eq_false_iff.mpr hp, ?_⟩
    cases hsf : splitFirst pat rest with
    | none => simp
    | some p =>
      obtain ⟨pb, pa⟩ := p
      rw [hsf] at h
      simp at h

theorem reboxSearch_of_noBox {s : Chars} (h : containsSub (lit "$box") s = false) :
    reboxSearch s = none := by
  induction s with
  | nil => rfl
  | cons c rest ih =>
    obtain ⟨h1, h2⟩ := containsSub_cons_false h
    unfold reboxSearch
    rw [h1]
    simp only [Bool.false_eq_true, if_false]
    rw [ih h2]

theorem finditerRebox_of_none (fuel : Nat) {s : Chars} (h : reboxSearch s = none) :
    finditerRebox fuel s = [] := by
  cases fuel with
  | zero => rfl
  | succ n =>
    unfold finditerRebox
    rw [h]

/-- A character that is neither `$` nor a backslash: such characters can take
part neither in an occurrence of the outer delimiter pattern nor in a
`re.sub` replacement-template escape. -/
def plainChar (c : Char) : Bool := c != '$' && c != '\\'

/-- A string of plain characters. -/
def plainStr (s : Chars) : Bool := s.all plainChar

/-- An optional string that is absent or plain. -/
def optPlain : Option Chars → Bool
  | none => true
  | some s => plainStr s

/-- A box all of whose rendered fields are absent or plain. -/
def boxPlain (b : Box) : Bool :=
  optPlain b.style && optPlain b.ctn_options && optPlain b.cap_options
    && optPlain b.cap_type && optPlain b.ctn && optPlain b.cap

theorem plainStr_append {a b : Chars} :
    plainStr (a ++ b) = (plainStr a && plainStr b) := List.all_append

theorem plainStr_getD {o : Option Chars} (h : optPlain o = true) :
    plainStr (o.getD []) = true := by
  cases o with
  | none => rfl
  | some s => exact h

theorem textEscape_plain {s : Chars} (h : plainStr s = true) :
    plainStr (textEscape s) = true := by
  induction s with
  | nil => rfl
  | cons c t ih =>
    simp only [plainStr, List.all_cons, Bool.and_eq_true] at h
    show plainStr ((if c = '&' then lit "&amp;" else if c = '<' then lit "&lt;"
      else if c = '>' then lit "&gt;" else [c]) ++ textEscape t) = true
    simp only [plainStr_append, Bool.and_eq_true]
    refine ⟨?_, ih h.2⟩
    split_ifs <;> first | decide | (simp [plainStr, h.1])

theorem attrIf_plain {o : Option Chars} (h : optPlain o = true) :
    plainStr (attrIf o) = true := by
  unfold attrIf
  split_ifs with ht
  · simp only [plainStr_append, Bool.and_eq_true]
    exact ⟨⟨by decide, textEscape_plain (plainStr_getD h)⟩, by decide⟩
  · rfl

theorem caption_txt_plain {b : Box} (hb : boxPlain b = true) (hn : b.number = 0) :
    optPlain b.caption_txt = true := by
  simp only [boxPlain, Bool.and_eq_true] at hb
  obtain ⟨⟨⟨⟨⟨-, -⟩, -⟩, hct⟩, -⟩, hc⟩ := hb
  unfold Box.caption_txt
  rw [hn]
  split_ifs
  · show plainStr _ = true
    simp only [plainStr_append, Bool.and_eq_true]
    exact ⟨⟨⟨⟨plainStr_getD hct, by decide⟩, by decide⟩, by decide⟩, plainStr_getD hc⟩
  · exact hct
  · exact hc
  · rfl

theorem put_caption_plain {b : Box} (hb : boxPlain b = true) (hn : b.number = 0) :
    plainStr b.put_caption = true := by
  have hcap := caption_txt_plain hb hn
  simp only [boxPlain, Bool.and_eq_true] at hb
  obtain ⟨⟨⟨⟨⟨-, -⟩, hco⟩, -⟩, -⟩, -⟩ := hb
  unfold Box.put_caption
  split_ifs
  · simp only [plainStr_append, Bool.and_eq_true]
    exact ⟨⟨⟨⟨by decide, attrIf_plain hco⟩, by decide⟩,
      textEscape_plain (plainStr_getD hcap)⟩, by decide⟩
  · rfl

theorem to_html_plain {b : Box} (hb : boxPlain b = true) (hn : b.number = 0) :
    plainStr b.to_html = true := by
  have hpc := put_caption_plain hb hn
  simp only [boxPlain, Bool.and_eq_true] at hb
  obtain ⟨⟨⟨⟨⟨hs, hcto⟩, -⟩, -⟩, hctn⟩, -⟩ := hb
  unfold Box.to_html
  simp only [plainStr_append, Bool.and_eq_true]
  exact ⟨⟨⟨⟨⟨⟨⟨⟨⟨by decide, attrIf_plain hs⟩, by decide⟩, by decide⟩,
    attrIf_plain hcto⟩, by decide⟩, textEscape_plain (plainStr_getD hctn)⟩,
    by decide⟩, hpc⟩, by decide⟩

theorem reboxSearch_of_plain {s : Chars} (h : plainStr s = true) :
    reboxSearch s = none := by
  induction s with
  | nil => rfl
  | cons c rest ih =>
    simp only [plainStr, List.all_cons, Bool.and_eq_true] at h
    have hp : (lit "$box").isPrefixOf (c :: rest) = false := by
      cases hq : (lit "$box").isPrefixOf (c :: rest) with
      | false => rfl
      | true =>
        obtain ⟨t, ht⟩ := List.isPrefixOf_iff_prefix.mp hq
        have hlit : lit "$box" = ['$', 'b', 'o', 'x'] := rfl
        rw [hlit] at ht
        simp only [List.cons_append] at ht
        injection ht with h1 h2
        rw [← h1] at h
        exact absurd h.1 (by decide)
    unfold reboxSearch
    rw [hp]
    simp only [Bool.false_eq_true, if_false]
    rw [ih h.2]

/-! ### Claim theorems -/

/-- Claim C7: for a box body consisting only of `$content{X}`, the parsed Box
has `content_body == "X"` while the style and caption fields remain absent
(`style == None`, `caption_type == None`, `caption_body == None`). -/
theorem claim_C7 :
    (boxGet (lit "$content\x7bX\x7d")).ctn = some (lit "X")
    ∧ (boxGet (lit "$content\x7bX\x7d")).style = none
    ∧ (boxGet (lit "$content\x7bX\x7d")).cap_type = none
    ∧ (boxGet (lit "$content\x7bX\x7d")).cap = none := by decide

/-- Claim C9: a document containing no `$box` token is returned unchanged by
the substitution pass (`__rebox__` cannot match without the literal `$box`,
so `re.finditer` yields nothing and the loop body never runs). -/
theorem claim_C9 {d : Chars} (h : containsSub (lit "$box") d = false) : parse d = d := by
  have hr := reboxSearch_of_noBox h
  unfold parse finditerReboxAll
  rw [finditerRebox_of_none _ hr]
  rfl

/-- Witness for C9 at a concrete no-`$box` document. -/
theorem claim_C9_witness :
    parse (lit "plain text without box markup") = lit "plain text without box markup" :=
  claim_C9 (by decide)

/-- Claim C8: `Box.get` is total (embedded as a plain function, mirroring
that the Python method raises no exception on any input string), and every
field whose pattern fails to match — including a `$content{` with no closing
brace, for which `__rectn__` does not match — remains absent: `style` stays
`None`, the caption fields stay `None`, and the content fields keep their
constructor values (`ctn = None`, `ctn_options = None`, `ctn_type = 'box'`). -/
theorem claim_C8 (src : Chars) :
    (restlSearch src = none → (boxGet src).style = none)
    ∧ (recapSearch src = none →
        (boxGet src).cap_type = none ∧ (boxGet src).cap_options = none
          ∧ (boxGet src).cap = none)
    ∧ (rectnSearch src = none →
        (boxGet src).ctn = none ∧ (boxGet src).ctn_options = none
          ∧ (boxGet src).ctn_type = lit "box") := by
  unfold boxGet Box.get
  refine ⟨fun h => ?_, fun h => ⟨?_, ?_, ?_⟩, fun h => ⟨?_, ?_, ?_⟩⟩
  · rw [(get_content_proj _ _).2.1, (get_caption_proj _ _).2.2.1,
      get_style_of_search_none h]
  · rw [(get_content_proj _ _).2.2.2.1, get_caption_of_search_none h,
      (get_style_proj _ _).2.2.2.2.1]
  · rw [(get_content_proj _ _).2.2.1, get_caption_of_search_none h,
      (get_style_proj _ _).2.2.2.1]
  · rw [(get_content_proj _ _).2.2.2.2, get_caption_of_search_none h,
      (get_style_proj _ _).2.2.2.2.2.2]
  · rw [get_content_of_search_none h, (get_caption_proj _ _).2.2.2.2,
      (get_style_proj _ _).2.2.2.2.2.1]
  · rw [get_content_of_search_none h, (get_caption_proj _ _).2.2.2.1,
      (get_style_proj _ _).2.2.1]
  · rw [get_content_of_search_none h, (get_caption_proj _ _).2.1,
      (get_style_proj _ _).2.1]

/-- Witness for C8 at a `$content{` with no matching closing brace: none of
the three patterns matches and every field keeps its constructor value. -/
theorem claim_C8_witness :
    (boxGet (lit "$content\x7bno closing brace")).style = none
    ∧ ((boxGet (lit "$content\x7bno closing brace")).cap_type = none
        ∧ (boxGet (lit "$content\x7bno closing brace")).cap_options = none
        ∧ (boxGet (lit "$content\x7bno closing brace")).cap = none)
    ∧ ((boxGet (lit "$content\x7bno closing brace")).ctn = none
        ∧ (boxGet (lit "$content\x7bno closing brace")).ctn_options = none
        ∧ (boxGet (lit "$content\x7bno closing brace")).ctn_type = lit "box") :=
  ⟨(claim_C8 _).1 (by decide), (claim_C8 _).2.1 (by decide), (claim_C8 _).2.2 (by decide)⟩

/-- Claim C3: a box body with no matching `$content{...}` field parses to
`ctn = None`, and rendering such a Box produces the same fragment as a Box
with an empty content body: the content element is simply empty, and the
renderer (total in this embedding) raises no error. -/
theorem claim_C3 {src : Chars} (h : rectnSearch src = none) :
    (boxGet src).ctn = none
    ∧ Box.to_html (boxGet src) = Box.to_html { boxGet src with ctn := some [] } := by
  have hctn : (boxGet src).ctn = none := by
    unfold boxGet Box.get
    rw [get_content_of_search_none h, (get_caption_proj _ _).2.2.2.2,
      (get_style_proj _ _).2.2.2.2.2.1]
  refine ⟨hctn, ?_⟩
  unfold Box.to_html Box.put_caption Box.caption_txt attrIf
  simp [hctn]

/-- Witness for C3 at a body with no content field at all. -/
theorem claim_C3_witness :
    (boxGet (lit "just text")).ctn = none
    ∧ Box.to_html (boxGet (lit "just text"))
        = Box.to_html { boxGet (lit "just text") with ctn := some [] } :=
  claim_C3 (by decide)

/-- Claim C10: when neither `cap` nor `cap_type` is truthy the caption-text
builder has no defined result (the Python `caption_txt` would fail with
`UnboundLocalError`, embedded as `none`), but `put_caption` only invokes the
builder under its presence guard, under which the builder is always defined,
and emits nothing when the guard fails — the undefined branch is unreachable
during rendering. -/
theorem claim_C10 (b : Box) :
    (truthy b.cap_type = false → truthy b.cap = false → b.caption_txt = none)
    ∧ ((truthy b.cap || truthy b.cap_type) = true → b.caption_txt.isSome = true)
    ∧ ((truthy b.cap || truthy b.cap_type) = false → b.put_caption = []) := by
  refine ⟨fun h1 h2 => ?_, fun h => ?_, fun h => ?_⟩
  · unfold Box.caption_txt
    rw [h1, h2]
    simp
  · simp only [Bool.or_eq_true] at h
    unfold Box.caption_txt
    split_ifs with g1 g2 g3
    · rfl
    · cases hct : b.cap_type with
      | none => rw [hct] at g2; simp [truthy] at g2
      | some t => simp
    · cases hc : b.cap with
      | none => rw [hc] at g3; simp [truthy] at g3
      | some t => simp
    · exfalso
      rcases h with h | h
      · exact g3 h
      · exact g2 h
  · unfold Box.put_caption
    simp [h]

/-- Witness for C10 at the all-absent box. -/
theorem claim_C10_witness :
    ({} : Box).caption_txt = none ∧ ({} : Box).put_caption = [] :=
  ⟨(claim_C10 {}).1 (by decide) (by decide), (claim_C10 {}).2.2 (by decide)⟩

/-- Claim C5: `put_caption` emits a caption element exactly when `cap` or
`cap_type` is truthy (non-`None` and non-empty), and the caption text is
`cap_type + ' ' + str(number) + ': ' + cap` when both are present, the bare
`cap_type` when only the type is present, and the bare `cap` when only the
body is present. -/
theorem claim_C5 (b : Box) :
    (b.put_caption ≠ [] ↔ (truthy b.cap || truthy b.cap_type) = true)
    ∧ (∀ tc cb, b.cap_type = some tc → tc ≠ [] → b.cap = some cb → cb ≠ [] →
        b.caption_txt = some (tc ++ [' '] ++ lit (toString b.number) ++ lit ": " ++ cb))
    ∧ (∀ tc, b.cap_type = some tc → tc ≠ [] → truthy b.cap = false →
        b.caption_txt = some tc)
    ∧ (∀ cb, b.cap = some cb → cb ≠ [] → truthy b.cap_type = false →
        b.caption_txt = some cb) := by
  refine ⟨?_, fun tc cb h1 h2 h3 h4 => ?_, fun tc h1 h2 h3 => ?_,
    fun cb h1 h2 h3 => ?_⟩
  · unfold Box.put_caption
    split_ifs with hg
    · refine ⟨fun _ => hg, fun _ hn => ?_⟩
      rw [List.append_eq_nil] at hn
      exact (by decide : (lit "</div>" : Chars) ≠ []) hn.2
    · simp [hg]
  · have he : tc.isEmpty = false := by
      cases tc with
      | nil => exact absurd rfl h2
      | cons a l => rfl
    have he' : cb.isEmpty = false := by
      cases cb with
      | nil => exact absurd rfl h4
      | cons a l => rfl
    unfold Box.caption_txt
    rw [h1, h3]
    simp [truthy, he, he']
  · have he : tc.isEmpty = false := by
      cases tc with
      | nil => exact absurd rfl h2
      | cons a l => rfl
    unfold Box.caption_txt
    rw [h1, h3]
    simp [truthy, he]
  · have he : cb.isEmpty = false := by
      cases cb with
      | nil => exact absurd rfl h2
      | cons a l => rfl
    unfold Box.caption_txt
    rw [h1, h3]
    simp [truthy, he]

/-- Witness for C5: a box with both caption type and caption body present
renders the full `type number: body` caption text. -/
theorem claim_C5_witness :
    ({ cap_type := some (lit "Figure"), cap := some (lit "cap text") } : Box).caption_txt
      = some (lit "Figure 0: cap text") := by
  have h := (claim_C5 { cap_type := some (lit "Figure"), cap := some (lit "cap text") }).2.1
    (lit "Figure") (lit "cap text") rfl (by decide) rfl (by decide)
  exact h.trans (by decide)

/-- Claim C6: when the content `TYPE` capture is present and truthy, the
parser stores its stripped text verbatim in `ctn_type` — for an arbitrary
captured string, with no validation against the `figure`/`table`/`note`/`box`
enumeration — and when the capture is absent (or the whole pattern fails to
match) `ctn_type` keeps its previous, constructor-supplied value. -/
theorem claim_C6 (b : Box) (src : Chars) :
    (∀ m t, rectnSearch src = some m → m.ctn_type = some t → t ≠ [] →
        (b.get_content src).ctn_type = pyStrip t)
    ∧ (∀ m, rectnSearch src = some m → (m.ctn_type = none ∨ m.ctn_type = some []) →
        (b.get_content src).ctn_type = b.ctn_type)
    ∧ (rectnSearch src = none → (b.get_content src).ctn_type = b.ctn_type) := by
  refine ⟨fun m t hm ht hne => ?_, fun m hm hty => ?_, fun h => ?_⟩
  · have he : t.isEmpty = false := by
      cases t with
      | nil => exact absurd rfl hne
      | cons a l => rfl
    unfold Box.get_content
    rw [hm]
    rcases m with ⟨mt, mo, mc⟩
    simp only at ht
    subst ht
    dsimp only
    simp only [he]
    rcases mo with - | o <;> dsimp only <;> (try split_ifs) <;> simp_all
  · unfold Box.get_content
    rw [hm]
    rcases m with ⟨mt, mo, mc⟩
    simp only at hty
    rcases hty with h0 | h0 <;> subst h0 <;> dsimp only <;>
      rcases mo with - | o <;> dsimp only <;> (try split_ifs) <;> simp_all
  · rw [get_content_of_search_none h]

/-- Witness for C6: the non-enumerated content type `whatever` is preserved
verbatim. -/
theorem claim_C6_witness :
    (Box.get_content {} (lit "$content(whatever)\x7bX\x7d")).ctn_type = lit "whatever" := by
  have h := (claim_C6 {} (lit "$content(whatever)\x7bX\x7d")).1
    ⟨some (lit "whatever"), none, lit "X"⟩ (lit "whatever") (by decide) rfl (by decide)
  exact h.trans (by decide)

/-- Counterexample to claim C4 as stated: the caption TYPE `' none '` equals
`'none'` after trimming whitespace at both ends, yet the parsed `cap_type` is
not absent — it is the literal label `'none'` — because the source compares
`cap_type.lower()` against `'none'` *before* stripping. -/
theorem claim_C4_counterexample :
    pyStrip (lit " none ") = lit "none"
    ∧ (boxGet (lit "$caption( none )\x7bSome text\x7d$content\x7bY\x7d")).cap_type
        = some (lit "none") := by decide

/-- Claim C4 (amended): a caption TYPE whose *untrimmed* text equals `none`
case-insensitively parses to an absent `cap_type` (a TYPE that equals `none`
only after trimming is instead kept, stripped, as the literal label); for the
body `$caption(none){Some text}$content{Y}` the box parses to
`cap_type = None` and `cap = 'Some text'`, and the caption text is the bare
body with no label prefix. -/
theorem claim_C4_amended :
    (∀ (b : Box) (src : Chars) m t, recapSearch src = some m → m.cap_type = some t →
        lowerChars t = lit "none" → (b.get_caption src).cap_type = none)
    ∧ (boxGet (lit "$caption(none)\x7bSome text\x7d$content\x7bY\x7d")).cap_type = none
    ∧ (boxGet (lit "$caption(none)\x7bSome text\x7d$content\x7bY\x7d")).cap
        = some (lit "Some text")
    ∧ (boxGet (lit "$caption(none)\x7bSome text\x7d$content\x7bY\x7d")).caption_txt
        = some (lit "Some text") := by
  refine ⟨fun b src m t hm ht hlow => ?_, by decide, by decide, by decide⟩
  have hne : t ≠ [] := by
    intro h0
    rw [h0] at hlow
    exact absurd hlow (by decide)
  have he : t.isEmpty = false := by
    cases t with
    | nil => exact absurd rfl hne
    | cons a l => rfl
  unfold Box.get_caption
  rw [hm]
  rcases m with ⟨mt, mo, mc⟩
  simp only at ht
  subst ht
  dsimp only
  simp only [he, hlow]
  rcases mo with - | o <;> rcases mc with - | cp <;> dsimp only <;>
    (try split_ifs) <;> simp_all

/-- Witness for the amended C4 at a mixed-case TYPE, exercising the
case-insensitive comparison. -/
theorem claim_C4_witness :
    (Box.get_caption {} (lit "$caption(NoNe)\x7bz\x7d")).cap_type = none :=
  (claim_C4_amended).1 {} (lit "$caption(NoNe)\x7bz\x7d")
    ⟨some (lit "NoNe"), none, some (lit "z")⟩ (lit "NoNe") (by decide) rfl (by decide)

set_option maxRecDepth 8000 in
/-- Counterexample to claim C1 as stated: for the spec's example document the
substitution pass renders the caption text `figure 0: A sample`, not
`figure 1: A sample` — `parse` builds every `Box()` with the constructor's
`number = 0` and no counter ever drives it. -/
theorem claim_C1_counterexample :
    containsSub (lit "figure 1: A sample")
      (parse (lit "$box$caption(figure)[color:red;]\x7bA sample\x7d$content\x7bBody text\x7d$endbox"))
      = false
    ∧ containsSub (lit "figure 0: A sample")
      (parse (lit "$box$caption(figure)[color:red;]\x7bA sample\x7d$content\x7bBody text\x7d$endbox"))
      = true := by decide

set_option maxRecDepth 8000 in
/-- Claim C1 (amended): the substitution pass is driven by no counter — every
box it builds carries the constructor's `number = 0` — so two sequential
figure boxes both render caption number 0 (not consecutive numbers starting
at 1), and the example box yields the caption text `figure 0: A sample` (the
label is still taken literally from the authored `caption_type`). -/
theorem claim_C1_amended :
    (∀ body : Chars, (boxGet body).number = 0)
    ∧ ((finditerReboxAll
          (lit "$box$caption(figure)\x7bA sample\x7d$content\x7bA\x7d$endbox and $box$caption(figure)\x7bB sample\x7d$content\x7bB\x7d$endbox")).map
        (fun body => (boxGet body).caption_txt))
        = [some (lit "figure 0: A sample"), some (lit "figure 0: B sample")]
    ∧ ((finditerReboxAll
          (lit "$box$caption(figure)[color:red;]\x7bA sample\x7d$content\x7bBody text\x7d$endbox")).map
        (fun body => (boxGet body).caption_txt))
        = [some (lit "figure 0: A sample")] := by
  exact ⟨boxGet_number, by decide, by decide⟩

/-- Witness for the amended C1 at a concrete body. -/
theorem claim_C1_witness : (boxGet (lit "$content\x7bw\x7d")).number = 0 :=
  claim_C1_amended.1 (lit "$content\x7bw\x7d")

/-- Counterexample to claim C2 as stated: `re.finditer` is evaluated once on
the original document (there is no re-scan of the partially substituted
text), so a content body that reintroduces the literal `$box` leaves the
returned string with a span that still matches the outer pattern. -/
theorem claim_C2_counterexample :
    (reboxSearch (parse (lit "$box $content\x7b$box\x7d $endbox $endbox"))).isSome
      = true := by decide

/-- Claim C2 (amended): the pass iterates over the outer-pattern occurrences
found in a single scan of the original document, replacing at each step the
first occurrence in the working copy; the returned string may still match the
outer pattern when a replacement reintroduces `$box`, but when the matched
box's fields and the surrounding text contain neither `$` nor a backslash,
the returned string contains no span matching the outer pattern. -/
theorem claim_C2_amended (d pre body post : Chars)
    (h : reboxSearch d = some (pre, body, post))
    (hpre : plainStr pre = true) (hpost : plainStr post = true)
    (hbox : boxPlain (boxGet body) = true) :
    reboxSearch (parse d) = none := by
  have hnum := boxGet_number body
  have hH : plainStr (Box.to_html (boxGet body)) = true := to_html_plain hbox hnum
  have hpost0 : reboxSearch post = none := reboxSearch_of_plain hpost
  have hfind : finditerReboxAll d = [body] := by
    unfold finditerReboxAll
    cases d with
    | nil => simp [reboxSearch] at h
    | cons c rest =>
      show finditerRebox (rest.length + 1) (c :: rest) = [body]
      unfold finditerRebox
      rw [h]
      dsimp only
      rw [finditerRebox_of_none _ hpost0]
  have hparse : parse d = pre ++ Box.to_html (boxGet body) ++ post := by
    unfold parse
    rw [hfind]
    show subFirstRebox (Box.to_html (boxGet body)) d = _
    unfold subFirstRebox
    rw [h]
  rw [hparse]
  apply reboxSearch_of_plain
  rw [plainStr_append, plainStr_append, hpre, hH, hpost]
  rfl

/-- Witness for the amended C2 at a concrete one-box document with plain
fields and plain surrounding text. -/
theorem claim_C2_witness :
    reboxSearch (parse (lit "A $box$caption(note)\x7bN\x7d$content\x7bC\x7d$endbox B"))
      = none :=
  claim_C2_amended (lit "A $box$caption(note)\x7bN\x7d$content\x7bC\x7d$endbox B")
    (lit "A ") (lit "$caption(note)\x7bN\x7d$content\x7bC\x7d") (lit " B")
    (by decide) (by decide) (by decide) (by decide)
